import Mathlib

/-!
Verification of the shallow-placeholder subsystem of `rjkroege/kopia`
(`fs/localfs/shallow_fs.go`), over a shallow embedding of the Go code.

The local filesystem is a flat map from opaque path strings to nodes
(regular files with string content, or directories); `os.Lstat`,
`os.MkdirAll`, `ioutil.ReadFile` and `atomic.WriteFile` act on that map.
`snapshot.DirEntry` and Go's `encoding/json` codec are external to the
given source files and are modelled from the spec (§3 and §6).
-/

namespace ShallowFS

/-- Modelled from the spec (§3): entry type enum of a `snapshot.DirEntry`
(`File`, `Directory`, `Symlink`); kopia encodes these as the JSON strings
"f", "d", "s". -/
inductive EntryType
  | file
  | directory
  | symlink
  deriving DecidableEq, Repr

/-- Modelled from the spec (§3): the authoritative description of one tree
node as stored in the repository: name, type, objectID, mode, size and
modification time (nanoseconds).  `snapshot.DirEntry` itself is not among
the given source files. -/
structure DirEntry where
  name : String
  type : EntryType
  objectID : String
  mode : Nat
  size : Nat
  modTime : Nat
  deriving DecidableEq, Repr

/-- A node of the local filesystem: a regular file with its byte content,
or a directory.  (Permission bits play no role in the verified claims and
are elided.) -/
inductive FNode
  | file (content : String)
  | dir
  deriving DecidableEq, Repr

/-- The local filesystem: a flat map from opaque path strings to nodes. -/
def FS := String → Option FNode

/-- Point update of a filesystem map. -/
def FS.update (fs : FS) (p : String) (n : FNode) : FS :=
  fun q => if q = p then some n else fs q

/-- Point removal from a filesystem map. -/
def FS.remove (fs : FS) (p : String) : FS :=
  fun q => if q = p then none else fs q

/-! ## JSON codec, modelled from the spec (§6)

Go's `encoding/json` is an external collaborator.  `json.Encoder.Encode`
emits the compact (no interior whitespace) JSON object for a `DirEntry`,
fields in struct-declaration order, and then appends a single `'\n'`.
`json.Decoder.Decode` reads one JSON value from the front of the stream
and leaves any trailing bytes unread.  The decoder below accepts exactly
the canonical form the encoder emits. -/

/-- One character of a JSON string body, escaped as Go's encoder does:
quote, backslash, newline, tab and carriage return become two-character
escapes, everything else passes through. -/
def escapeChar (c : Char) : List Char :=
  if c = '"' then ['\\', '"']
  else if c = '\\' then ['\\', '\\']
  else if c = '\n' then ['\\', 'n']
  else if c = '\t' then ['\\', 't']
  else if c = '\r' then ['\\', 'r']
  else [c]

/-- JSON string-body escaping of a character list. -/
def escapeChars : List Char → List Char
  | [] => []
  | c :: cs => escapeChar c ++ escapeChars cs

/-- The character named by a backslash escape, if the escape is one the
encoder produces. -/
def unescapeChar (c : Char) : Option Char :=
  if c = '"' then some '"'
  else if c = '\\' then some '\\'
  else if c = 'n' then some '\n'
  else if c = 't' then some '\t'
  else if c = 'r' then some '\r'
  else none

/-- Parse a JSON string body one character at a time; the flag records
a pending backslash whose escape is to be resolved next. -/
def parseStringBodyAux : Bool → List Char → Option (List Char × List Char)
  | _, [] => none
  | true, e :: rest =>
    match unescapeChar e, parseStringBodyAux false rest with
    | some u, some (s, r) => some (u :: s, r)
    | _, _ => none
  | false, c :: rest =>
    if c = '"' then some ([], rest)
    else if c = '\\' then parseStringBodyAux true rest
    else
      match parseStringBodyAux false rest with
      | some (s, r) => some (c :: s, r)
      | none => none

/-- Parse a JSON string body up to and including its closing quote;
returns the unescaped body and the unread remainder. -/
def parseStringBody (l : List Char) : Option (List Char × List Char) :=
  parseStringBodyAux false l

/-- Decimal digit test on characters. -/
def isDigitChar (c : Char) : Bool :=
  48 ≤ c.toNat && c.toNat ≤ 57

/-- Numeric value of a decimal digit character. -/
def digitVal (c : Char) : Nat :=
  c.toNat - 48

/-- The character for a decimal digit. -/
def digitChar (d : Nat) : Char :=
  Char.ofNat (48 + d)

/-- Consume a maximal run of decimal digits, most significant first,
accumulating their value onto `acc`. -/
def parseNatAux : List Char → Nat → Nat × List Char
  | [], acc => (acc, [])
  | c :: rest, acc =>
    if isDigitChar c then parseNatAux rest (acc * 10 + digitVal c)
    else (acc, c :: rest)

/-- Parse a JSON number (a nonempty digit run). -/
def parseNat : List Char → Option (Nat × List Char)
  | [] => none
  | c :: rest =>
    if isDigitChar c then some (parseNatAux rest (digitVal c))
    else none

/-- Value of a most-significant-first digit list on top of an
accumulator; the specification of what `parseNatAux` computes. -/
def msbVal : List Nat → Nat → Nat
  | [], acc => acc
  | d :: ds, acc => msbVal ds (acc * 10 + d)

/-- Whether the input starts with a decimal digit (the condition under
which `parseNatAux` would consume further). -/
def headIsDigit : List Char → Bool
  | [] => false
  | c :: _ => isDigitChar c

/-- Decimal digits of a positive number, most significant first; `fuel`
bounds the recursion and any `fuel ≥ n` is exact. -/
def natToCharsAux : Nat → Nat → List Char
  | 0, _ => []
  | _ + 1, 0 => []
  | fuel + 1, n + 1 =>
    natToCharsAux fuel ((n + 1) / 10) ++ [digitChar ((n + 1) % 10)]

/-- Decimal rendering of a natural number, as the JSON encoder emits it. -/
def natToChars (n : Nat) : List Char :=
  if n = 0 then ['0'] else natToCharsAux n n

/-- The JSON string content encoding an entry type ("f", "d" or "s"). -/
def typeTagChars : EntryType → List Char
  | .file => ['f']
  | .directory => ['d']
  | .symlink => ['s']

/-- Entry type named by a JSON string body, if any. -/
def typeOfTag : List Char → Option EntryType
  | ['f'] => some .file
  | ['d'] => some .directory
  | ['s'] => some .symlink
  | _ => none

/-- Literal `\x7b"name":"` opening the canonical DirEntry object. -/
def litName : List Char :=
  ['\x7b', '"', 'n', 'a', 'm', 'e', '"', ':', '"']

/-- Literal `,"type":"` between the name and type fields (the name
field's closing quote precedes it in the encoder's output). -/
def litType : List Char :=
  [',', '"', 't', 'y', 'p', 'e', '"', ':', '"']

/-- Literal `,"obj":"` between the type and objectID fields. -/
def litObj : List Char :=
  [',', '"', 'o', 'b', 'j', '"', ':', '"']

/-- Literal `,"mode":` between the objectID and mode fields. -/
def litMode : List Char :=
  [',', '"', 'm', 'o', 'd', 'e', '"', ':']

/-- Literal `,"size":` between the mode and size fields. -/
def litSize : List Char :=
  [',', '"', 's', 'i', 'z', 'e', '"', ':']

/-- Literal `,"mtime":` between the size and modTime fields. -/
def litMtime : List Char :=
  [',', '"', 'm', 't', 'i', 'm', 'e', '"', ':']

/-- Literal `\x7d` closing the object. -/
def litClose : List Char := ['\x7d']

/-- The compact JSON object for a `DirEntry`, exactly as the encoder
emits it (no interior whitespace, fields in declaration order, no
trailing newline yet). -/
def encodeDirEntryChars (e : DirEntry) : List Char :=
  litName ++ escapeChars e.name.data ++
    '"' :: (litType ++ typeTagChars e.type ++
      '"' :: (litObj ++ escapeChars e.objectID.data ++
        '"' :: (litMode ++ natToChars e.mode ++
          litSize ++ natToChars e.size ++
          litMtime ++ natToChars e.modTime ++ litClose)))

/-- Drop an expected literal from the front of the input. -/
def dropLit : List Char → List Char → Option (List Char)
  | [], cs => some cs
  | _ :: _, [] => none
  | l :: ls, c :: cs => if c = l then dropLit ls cs else none

/-- Parse one canonical DirEntry JSON object from the front of the
input; returns the entry and the unread remainder. -/
def decodeDirEntryChars (l : List Char) : Option (DirEntry × List Char) :=
  match dropLit litName l with
  | none => none
  | some l1 =>
    match parseStringBody l1 with
    | none => none
    | some (nameChars, l2) =>
      match dropLit litType l2 with
      | none => none
      | some l3 =>
        match parseStringBody l3 with
        | none => none
        | some (tagChars, l4) =>
          match typeOfTag tagChars with
          | none => none
          | some et =>
            match dropLit litObj l4 with
            | none => none
            | some l5 =>
              match parseStringBody l5 with
              | none => none
              | some (objChars, l6) =>
                match dropLit litMode l6 with
                | none => none
                | some l7 =>
                  match parseNat l7 with
                  | none => none
                  | some (mode, l8) =>
                    match dropLit litSize l8 with
                    | none => none
                    | some l9 =>
                      match parseNat l9 with
                      | none => none
                      | some (size, l10) =>
                        match dropLit litMtime l10 with
                        | none => none
                        | some l11 =>
                          match parseNat l11 with
                          | none => none
                          | some (mtime, l12) =>
                            match dropLit litClose l12 with
                            | none => none
                            | some l13 =>
                              some (⟨String.mk nameChars, et,
                                String.mk objChars, mode, size, mtime⟩, l13)

/-- `json.Encoder.Encode` output for a `DirEntry`: the compact JSON
object followed by the encoder's single `'\n'`. -/
def encoderEncode (e : DirEntry) : String :=
  String.mk (encodeDirEntryChars e ++ ['\n'])

/-- `json.Decoder.Decode` into a `DirEntry`: reads one canonical JSON
object off the front of the content and ignores trailing bytes. -/
def jsonDecodeDirEntry (s : String) : Option DirEntry :=
  match decodeDirEntryChars s.data with
  | some (e, _) => some e
  | none => none

/-! ## Filesystem primitives

`os.MkdirAll` and `atomic.WriteFile` over the flat path map.  Paths are
opaque strings, so `MkdirAll`'s creation of missing ancestors collapses
to creating the named directory itself. -/

/-- Errors of the shallow-placeholder helpers, one constructor per
distinct `errors.Errorf`/`errors.Wrap` site. -/
inductive ShallowError
  | unsupportedEntryType (et : EntryType)
  | mkdirFailed (path : String)
  | writeFailed (path : String)
  | readFailed (path : String)
  | decodeFailed (path : String)
  | corrupt (path php : String)
  | notFound (path : String)
  | notSupported (what : String)
  deriving DecidableEq, Repr

instance {ε α : Type} [DecidableEq ε] [DecidableEq α] :
    DecidableEq (Except ε α)
  | .ok a, .ok b =>
    if h : a = b then .isTrue (by rw [h])
    else .isFalse (by intro he; cases he; exact h rfl)
  | .ok _, .error _ => .isFalse (by intro he; cases he)
  | .error _, .ok _ => .isFalse (by intro he; cases he)
  | .error a, .error b =>
    if h : a = b then .isTrue (by rw [h])
    else .isFalse (by intro he; cases he; exact h rfl)

/-- `os.MkdirAll`: succeeds leaving an existing directory in place,
fails if a regular file occupies the path, creates the directory
otherwise. -/
def mkdirAll (fs : FS) (p : String) : Except ShallowError FS :=
  match fs p with
  | some .dir => .ok fs
  | some (.file _) => .error (.mkdirFailed p)
  | none => .ok (fs.update p .dir)

/-- `atomic.WriteFile`: atomically replaces the file at `p` with the
given content; fails if a directory occupies the path (the final rename
cannot replace a directory). -/
def atomicWriteFile (fs : FS) (p : String) (content : String) :
    Except ShallowError FS :=
  match fs p with
  | some .dir => .error (.writeFailed p)
  | _ => .ok (fs.update p (.file content))

/-- `ioutil.ReadFile`: the content of the regular file at `p`, failing
on a directory or an absent path. -/
def readFile (fs : FS) (p : String) : Option String :=
  match fs p with
  | some (.file c) => some c
  | _ => none

/-- `filepath.Join` on two clean components. -/
def filepathJoin (a b : String) : String :=
  a ++ "/" ++ b

/-- The fixed placeholder suffix; per the source comment, a placeholder
for directory `d1` is `d1.kopia-entry/.kopia-entry` and for file `f1` is
`f1.kopia-entry`. -/
def ShallowEntrySuffix : String := ".kopia-entry"

/-! ## The shallow-placeholder helpers (`fs/localfs/shallow_fs.go`) -/

/-- `placeholderPath`: the node path holding the placeholder metadata
for `path`, creating the enclosing `path + suffix` directory for
directory entries; any type other than File or Directory is
unsupported. -/
def placeholderPath (fs : FS) (path : String) (et : EntryType) :
    Except ShallowError (String × FS) :=
  match et with
  | .file => .ok (path ++ ShallowEntrySuffix, fs)
  | .directory =>
    let dirpath := path ++ ShallowEntrySuffix
    match mkdirAll fs dirpath with
    | .error e => .error e
    | .ok fs1 => .ok (filepathJoin dirpath ShallowEntrySuffix, fs1)
  | _ => .error (.unsupportedEntryType et)

/-- `WriteShallowPlaceholder`: JSON-encode the entry, compute the
placeholder path for its type, and atomically write the encoding there;
returns the placeholder path and the updated filesystem. -/
def WriteShallowPlaceholder (fs : FS) (path : String) (de : DirEntry) :
    Except ShallowError (String × FS) :=
  let buffy := encoderEncode de
  match placeholderPath fs path de.type with
  | .error e => .error e
  | .ok (mp, fs1) =>
    match atomicWriteFile fs1 mp buffy with
    | .error e => .error e
    | .ok fs2 => .ok (mp, fs2)

/-- `dirEntryFromPlaceholder`: read the file at `path` and JSON-decode a
`DirEntry` from it. -/
def dirEntryFromPlaceholder (fs : FS) (path : String) :
    Except ShallowError DirEntry :=
  match fs path with
  | some (.file b) =>
    match jsonDecodeDirEntry b with
    | some de => .ok de
    | none => .error (.decodeFailed path)
  | _ => .error (.readFailed path)

/-- Whether an `Lstat` result is a directory (`fi.IsDir()`); `false`
when the stat failed. -/
def isDirNode : Option FNode → Bool
  | some .dir => true
  | _ => false

/-- Whether an `Lstat` result is a regular file. -/
def isFileNode : Option FNode → Bool
  | some (.file _) => true
  | _ => false

/-- `ReadShallowPlaceholder`: probe `path` for a real entry and
`path + suffix` for a placeholder; both present is the corruption error,
a lone directory placeholder redirects to its inner metadata file, a
decodable placeholder is returned, a lone real entry yields `none`, and
otherwise the not-found error. -/
def ReadShallowPlaceholder (fs : FS) (path : String) :
    Except ShallowError (Option DirEntry) :=
  let originalpresent := (fs path).isSome
  let php := path ++ ShallowEntrySuffix
  let st := fs php
  if st.isSome && originalpresent then
    .error (.corrupt path php)
  else
    let php1 := if isDirNode st then filepathJoin php ShallowEntrySuffix else php
    match dirEntryFromPlaceholder fs php1 with
    | .ok de => .ok (some de)
    | .error _ =>
      if originalpresent then .ok none
      else .error (.notFound path)

/-- Modelled from the spec (§4.4, §6): snapshot creation runs the
Integrity Validator over every logical path of the source tree, probing
each with `ReadShallowPlaceholder`; any probe error — in particular the
I1 corruption error — fails the whole snapshot operation.  The uploader
itself is not among the given source files, only its end-to-end test
(`TestPlaceholderAndRealFails`). -/
def snapshotCreate (fs : FS) (tree : List String) :
    Except ShallowError Unit :=
  match tree with
  | [] => .ok ()
  | p :: rest =>
    match ReadShallowPlaceholder fs p with
    | .error e => .error e
    | .ok _ => snapshotCreate fs rest

/-- Modelled from the spec (§6): `atomic.WriteFile` writes the new bytes
to a fresh temporary file and renames it into place.  These are the
observable filesystem states of one write to `p`: before anything
happens, with the temporary fully written, and after the atomic rename
(which consumes the temporary and replaces `p` in one step).  No state
exposes partial content at `p`. -/
def atomicWriteStates (fs : FS) (p : String) (content : String) :
    List FS :=
  let tmp := p ++ ".tmp"
  [fs,
   fs.update tmp (.file content),
   ((fs.update tmp (.file content)).remove tmp).update p (.file content)]

/-! ## Concrete sample states for witnesses -/

/-- Sample entry used by concrete witnesses: a plain file entry. -/
def wde1 : DirEntry :=
  ⟨"n1", .file, "ob1", 420, 10, 1234⟩

/-- The empty filesystem, start state of several witnesses. -/
def wfs0 : FS := fun _ => none

/-- The filesystem after writing the placeholder of `wde1` at `"/f"`
over the empty filesystem. -/
def wfsAfterF : FS :=
  FS.update wfs0 ("/f" ++ ShallowEntrySuffix) (.file (encoderEncode wde1))

/-- A filesystem holding both a real file at `"/x"` and a (junk)
placeholder node at `"/x" + suffix` — an I1 violation. -/
def wfsBoth : FS := fun q =>
  if q = "/x" then some (.file "real")
  else if q = "/x" ++ ShallowEntrySuffix then some (.file "junk")
  else none

/-- A filesystem holding only a real file at `"/r"`. -/
def wfsReal : FS := fun q =>
  if q = "/r" then some (.file "hello") else none

/-- A filesystem holding only an undecodable placeholder node at
`"/b" + suffix`. -/
def wfsBad : FS := fun q =>
  if q = "/b" ++ ShallowEntrySuffix then some (.file "junk") else none

/-- The intermediate state of the modelled atomic write of `wde1`'s
placeholder at `"/f"`: the temporary file exists, the target is not yet
renamed into place. -/
def wtmpState : FS :=
  FS.update wfs0 (("/f" ++ ShallowEntrySuffix) ++ ".tmp")
    (.file (encoderEncode wde1))

/-! ## Placeholder-backed entries (`shallowFilesystemFile` /
`shallowFilesystemDirectory`) -/

/-- A placeholder-backed file entry, carrying its full local path. -/
structure shallowFilesystemFile where
  fullPath : String

/-- A placeholder-backed directory entry, carrying its full local
path. -/
structure shallowFilesystemDirectory where
  fullPath : String

/-- `shallowFilesystemFile.DirEntryOrNil`: the decoded placeholder
metadata for the entry's path. -/
def shallowFilesystemFile.DirEntryOrNil (fsf : shallowFilesystemFile)
    (fs : FS) : Except ShallowError (Option DirEntry) :=
  ReadShallowPlaceholder fs fsf.fullPath

/-- `shallowFilesystemDirectory.DirEntryOrNil`: the decoded placeholder
metadata for the entry's path. -/
def shallowFilesystemDirectory.DirEntryOrNil
    (fsd : shallowFilesystemDirectory) (fs : FS) :
    Except ShallowError (Option DirEntry) :=
  ReadShallowPlaceholder fs fsd.fullPath

/-- `shallowFilesystemFile.Open`: always the "not supported" error. -/
def shallowFilesystemFile.Open (_fsf : shallowFilesystemFile) :
    Except ShallowError Unit :=
  .error (.notSupported "shallowFilesystemFile.Open not supported")

/-- `shallowFilesystemDirectory.Child`: always the "not supported"
error. -/
def shallowFilesystemDirectory.Child (_fsd : shallowFilesystemDirectory)
    (_name : String) : Except ShallowError Unit :=
  .error (.notSupported "shallowFilesystemDirectory.Child not supported")

/-- `shallowFilesystemDirectory.Readdir`: always the "not supported"
error. -/
def shallowFilesystemDirectory.Readdir
    (_fsd : shallowFilesystemDirectory) : Except ShallowError Unit :=
  .error (.notSupported "shallowFilesystemDirectory.Readdir not supported")

/-! ## Codec round-trip lemmas -/

theorem dropLit_append :
    ∀ (lit rest : List Char), dropLit lit (lit ++ rest) = some rest
  | [], _ => rfl
  | l :: ls, rest => by
    simp [dropLit, dropLit_append ls rest]

theorem parseStringBody_escape (s : List Char) :
    ∀ rest : List Char,
      parseStringBody (escapeChars s ++ '"' :: rest) = some (s, rest) := by
  unfold parseStringBody
  induction s with
  | nil => intro rest; simp [escapeChars, parseStringBodyAux]
  | cons c cs ih =>
    intro rest
    by_cases h1 : c = '"'
    · subst h1
      simp [escapeChars, escapeChar, parseStringBodyAux, unescapeChar, ih]
    · by_cases h2 : c = '\\'
      · subst h2
        simp [escapeChars, escapeChar, parseStringBodyAux, unescapeChar, ih]
      · by_cases h3 : c = '\n'
        · subst h3
          simp [escapeChars, escapeChar, parseStringBodyAux, unescapeChar, ih]
        · by_cases h4 : c = '\t'
          · subst h4
            simp [escapeChars, escapeChar, parseStringBodyAux, unescapeChar,
              ih]
          · by_cases h5 : c = '\r'
            · subst h5
              simp [escapeChars, escapeChar, parseStringBodyAux, unescapeChar,
                ih]
            · rw [escapeChars]
              rw [show escapeChar c = [c] from by
                simp [escapeChar, h1, h2, h3, h4, h5]]
              simp only [List.cons_append, List.nil_append]
              rw [parseStringBodyAux, if_neg h1, if_neg h2, ih]

theorem isDigitChar_digitChar (d : Nat) (h : d < 10) :
    isDigitChar (digitChar d) = true := by
  interval_cases d <;> decide

theorem digitVal_digitChar (d : Nat) (h : d < 10) :
    digitVal (digitChar d) = d := by
  interval_cases d <;> decide

theorem parseNatAux_digits :
    ∀ (ds : List Nat) (acc : Nat) (rest : List Char),
      (∀ d ∈ ds, d < 10) → headIsDigit rest = false →
      parseNatAux (ds.map digitChar ++ rest) acc = (msbVal ds acc, rest) := by
  intro ds
  induction ds with
  | nil =>
    intro acc rest _ hrest
    cases rest with
    | nil => rfl
    | cons c t =>
      simp only [headIsDigit] at hrest
      simp [parseNatAux, msbVal, hrest]
  | cons d ds ih =>
    intro acc rest hds hrest
    have hd : d < 10 := hds d (List.mem_cons_self d ds)
    simp only [List.map_cons, List.cons_append]
    rw [parseNatAux, if_pos (isDigitChar_digitChar d hd),
      digitVal_digitChar d hd,
      ih (acc * 10 + d) rest (fun x hx => hds x (List.mem_cons_of_mem d hx))
        hrest]
    rfl

theorem msbVal_eq :
    ∀ (L : List Nat) (acc : Nat),
      msbVal L acc = acc * 10 ^ L.length + Nat.ofDigits 10 L.reverse := by
  intro L
  induction L with
  | nil => intro acc; simp [msbVal]
  | cons d ds ih =>
    intro acc
    rw [msbVal, ih]
    simp only [List.reverse_cons, List.length_cons, Nat.ofDigits_append,
      Nat.ofDigits_singleton, List.length_reverse, pow_succ]
    ring

theorem natToCharsAux_zero : ∀ fuel, natToCharsAux fuel 0 = []
  | 0 => rfl
  | _ + 1 => rfl

theorem natToCharsAux_eq :
    ∀ (fuel n : Nat), 0 < n → n ≤ fuel →
      natToCharsAux fuel n = ((Nat.digits 10 n).reverse).map digitChar := by
  intro fuel
  induction fuel with
  | zero => intro n h1 h2; omega
  | succ fuel ih =>
    intro n h1 h2
    obtain ⟨m, rfl⟩ : ∃ m, n = m + 1 := ⟨n - 1, by omega⟩
    rw [natToCharsAux, Nat.digits_def' (by norm_num : 1 < 10) h1]
    simp only [List.reverse_cons, List.map_append, List.map_cons,
      List.map_nil]
    by_cases hq : (m + 1) / 10 = 0
    · rw [hq, natToCharsAux_zero]
      simp
    · have hlt : (m + 1) / 10 < m + 1 := Nat.div_lt_self h1 (by norm_num)
      rw [ih ((m + 1) / 10) (Nat.pos_of_ne_zero hq) (by omega)]

theorem parseNat_natToChars (n : Nat) (rest : List Char)
    (hrest : headIsDigit rest = false) :
    parseNat (natToChars n ++ rest) = some (n, rest) := by
  by_cases h0 : n = 0
  · subst h0
    rw [natToChars, if_pos rfl]
    simp only [List.cons_append, List.nil_append]
    rw [parseNat, if_pos (by decide : isDigitChar '0' = true)]
    have h := parseNatAux_digits [] 0 rest (by simp) hrest
    simp only [List.map_nil, List.nil_append] at h
    rw [show digitVal '0' = 0 from by decide, h]
    rfl
  · have hpos : 0 < n := Nat.pos_of_ne_zero h0
    rw [natToChars, if_neg h0, natToCharsAux_eq n n hpos le_rfl]
    have hne : Nat.digits 10 n ≠ [] := Nat.digits_ne_nil_iff_ne_zero.mpr h0
    cases hL : (Nat.digits 10 n).reverse with
    | nil =>
      exact absurd (by simpa using congrArg List.reverse hL) hne
    | cons d ds =>
      have hmem : ∀ x ∈ d :: ds, x < 10 := by
        intro x hx
        have hx2 : x ∈ Nat.digits 10 n := by
          rw [← List.mem_reverse, hL]; exact hx
        exact Nat.digits_lt_base (by norm_num) hx2
      have hd : d < 10 := hmem d (List.mem_cons_self d ds)
      simp only [List.map_cons, List.cons_append]
      rw [parseNat, if_pos (isDigitChar_digitChar d hd),
        digitVal_digitChar d hd,
        parseNatAux_digits ds d rest
          (fun x hx => hmem x (List.mem_cons_of_mem d hx)) hrest]
      have hv : msbVal ds d = n := by
        have h1 : msbVal (d :: ds) 0 = n := by
          rw [msbVal_eq, ← hL]
          simp [Nat.ofDigits_digits]
        calc msbVal ds d = msbVal (d :: ds) 0 := by rw [msbVal]; norm_num
          _ = n := h1
      rw [hv]

theorem stringMk_data : ∀ s : String, String.mk s.data = s
  | ⟨_⟩ => rfl

theorem typeOfTag_typeTag (t : EntryType) :
    typeOfTag (typeTagChars t) = some t := by
  cases t <;> rfl

theorem parseStringBody_typeTag (t : EntryType) (rest : List Char) :
    parseStringBody (typeTagChars t ++ '"' :: rest) =
      some (typeTagChars t, rest) := by
  cases t <;> rfl

theorem headIsDigit_litSize (X : List Char) :
    headIsDigit (litSize ++ X) = false := rfl

theorem headIsDigit_litMtime (X : List Char) :
    headIsDigit (litMtime ++ X) = false := rfl

theorem headIsDigit_litClose (X : List Char) :
    headIsDigit (litClose ++ X) = false := rfl

theorem decodeDirEntryChars_encode (e : DirEntry) (rest : List Char) :
    decodeDirEntryChars (encodeDirEntryChars e ++ rest) = some (e, rest) := by
  obtain ⟨name, et, obj, mode, size, mtime⟩ := e
  simp only [encodeDirEntryChars, List.append_assoc, List.cons_append]
  simp only [decodeDirEntryChars, dropLit_append, parseStringBody_escape,
    parseStringBody_typeTag, typeOfTag_typeTag, parseNat_natToChars,
    headIsDigit_litSize, headIsDigit_litMtime, headIsDigit_litClose,
    stringMk_data]

theorem jsonDecode_encoderEncode (e : DirEntry) :
    jsonDecodeDirEntry (encoderEncode e) = some e := by
  have h : (encoderEncode e).data = encodeDirEntryChars e ++ ['\n'] := rfl
  simp only [jsonDecodeDirEntry, h, decodeDirEntryChars_encode]

/-! ## Newline freedom of the compact JSON object -/

theorem newline_not_mem_escapeChar (c : Char) : '\n' ∉ escapeChar c := by
  by_cases h1 : c = '"'
  · subst h1; decide
  · by_cases h2 : c = '\\'
    · subst h2; decide
    · by_cases h3 : c = '\n'
      · subst h3; decide
      · by_cases h4 : c = '\t'
        · subst h4; decide
        · by_cases h5 : c = '\r'
          · subst h5; decide
          · simp [escapeChar, h1, h2, h3, h4, h5]
            exact fun h => h3 h.symm

theorem newline_not_mem_escapeChars (s : List Char) :
    '\n' ∉ escapeChars s := by
  induction s with
  | nil => simp [escapeChars]
  | cons c cs ih =>
    simp only [escapeChars, List.mem_append]
    rintro (h | h)
    · exact newline_not_mem_escapeChar c h
    · exact ih h

theorem newline_not_mem_natToChars (n : Nat) : '\n' ∉ natToChars n := by
  by_cases h0 : n = 0
  · subst h0; decide
  · rw [natToChars, if_neg h0,
      natToCharsAux_eq n n (Nat.pos_of_ne_zero h0) le_rfl]
    intro hmem
    obtain ⟨d, hd, heq⟩ := List.mem_map.mp hmem
    have hd10 : d < 10 :=
      Nat.digits_lt_base (by norm_num) (List.mem_reverse.mp hd)
    interval_cases d <;> exact absurd heq (by decide)

theorem newline_not_mem_typeTag (t : EntryType) :
    '\n' ∉ typeTagChars t := by
  cases t <;> decide

theorem newline_ne_quote : ¬ ('\n' = '"') := by decide

theorem newline_not_mem_encode (e : DirEntry) :
    '\n' ∉ encodeDirEntryChars e := by
  intro h
  simp only [encodeDirEntryChars, List.append_assoc, List.cons_append,
    List.mem_append, List.mem_cons] at h
  rcases h with h|h|h|h|h|h|h|h|h|h|h|h|h|h|h|h
  · exact absurd h (by decide)
  · exact newline_not_mem_escapeChars _ h
  · exact newline_ne_quote h
  · exact absurd h (by decide)
  · exact newline_not_mem_typeTag _ h
  · exact newline_ne_quote h
  · exact absurd h (by decide)
  · exact newline_not_mem_escapeChars _ h
  · exact newline_ne_quote h
  · exact absurd h (by decide)
  · exact newline_not_mem_natToChars _ h
  · exact absurd h (by decide)
  · exact newline_not_mem_natToChars _ h
  · exact absurd h (by decide)
  · exact newline_not_mem_natToChars _ h
  · exact absurd h (by decide)

/-! ## Filesystem lemmas -/

theorem FS.update_same (fs : FS) (p : String) (n : FNode) :
    fs.update p n p = some n := by
  simp [FS.update]

theorem FS.update_ne (fs : FS) (p : String) (n : FNode) (q : String)
    (h : q ≠ p) : fs.update p n q = fs q := by
  simp [FS.update, h]

theorem ne_of_length_ne {a b : String} (h : a.length ≠ b.length) :
    a ≠ b :=
  fun he => h (congrArg String.length he)

theorem suffix_length : ShallowEntrySuffix.length = 12 := rfl

theorem path_ne_suffixed (p : String) : p ++ ShallowEntrySuffix ≠ p := by
  apply ne_of_length_ne
  simp [String.length_append, suffix_length]

theorem slash_length : ("/" : String).length = 1 := rfl

theorem joined_ne_suffixed (p : String) :
    filepathJoin (p ++ ShallowEntrySuffix) ShallowEntrySuffix ≠
      p ++ ShallowEntrySuffix := by
  apply ne_of_length_ne
  simp [filepathJoin, String.length_append, suffix_length, slash_length]
  omega

theorem joined_ne_path (p : String) :
    filepathJoin (p ++ ShallowEntrySuffix) ShallowEntrySuffix ≠ p := by
  apply ne_of_length_ne
  simp [filepathJoin, String.length_append, suffix_length, slash_length]
  omega

/-! ## Characterization of a successful placeholder write -/

theorem write_ok_cases (fs : FS) (p : String) (e : DirEntry) (mp : String)
    (fs2 : FS) (hw : WriteShallowPlaceholder fs p e = .ok (mp, fs2)) :
    (e.type = .file ∧ mp = p ++ ShallowEntrySuffix ∧
      fs2 = fs.update mp (.file (encoderEncode e))) ∨
    (e.type = .directory ∧
      mp = filepathJoin (p ++ ShallowEntrySuffix) ShallowEntrySuffix ∧
      ∃ fs1 : FS,
        (fs1 = fs ∨ fs1 = fs.update (p ++ ShallowEntrySuffix) .dir) ∧
        fs1 (p ++ ShallowEntrySuffix) = some .dir ∧
        fs2 = fs1.update mp (.file (encoderEncode e))) := by
  cases htype : e.type with
  | file =>
    left
    refine ⟨rfl, ?_, ?_⟩ <;>
    · simp only [WriteShallowPlaceholder, placeholderPath, htype,
        atomicWriteFile] at hw
      rcases hnode : fs (p ++ ShallowEntrySuffix) with _ | node
      · rw [hnode] at hw
        simp only [Except.ok.injEq, Prod.mk.injEq] at hw
        simp [← hw.1, ← hw.2]
      · cases node with
        | file c =>
          rw [hnode] at hw
          simp only [Except.ok.injEq, Prod.mk.injEq] at hw
          simp [← hw.1, ← hw.2]
        | dir =>
          rw [hnode] at hw
          cases hw
  | directory =>
    right
    simp only [WriteShallowPlaceholder, placeholderPath, htype,
      mkdirAll] at hw
    rcases hnode : fs (p ++ ShallowEntrySuffix) with _ | node
    · rw [hnode] at hw
      simp only [atomicWriteFile] at hw
      have hinner :
          fs.update (p ++ ShallowEntrySuffix) FNode.dir
            (filepathJoin (p ++ ShallowEntrySuffix) ShallowEntrySuffix) =
            fs (filepathJoin (p ++ ShallowEntrySuffix) ShallowEntrySuffix) :=
        FS.update_ne _ _ _ _ (joined_ne_suffixed p)
      rcases hnode2 :
          fs (filepathJoin (p ++ ShallowEntrySuffix) ShallowEntrySuffix)
          with _ | node2
      · rw [hinner, hnode2] at hw
        simp only [Except.ok.injEq, Prod.mk.injEq] at hw
        refine ⟨rfl, hw.1.symm, fs.update (p ++ ShallowEntrySuffix) .dir,
          Or.inr rfl, FS.update_same _ _ _, ?_⟩
        rw [← hw.2, ← hw.1]
      · cases node2 with
        | file c =>
          rw [hinner, hnode2] at hw
          simp only [Except.ok.injEq, Prod.mk.injEq] at hw
          refine ⟨rfl, hw.1.symm, fs.update (p ++ ShallowEntrySuffix) .dir,
            Or.inr rfl, FS.update_same _ _ _, ?_⟩
          rw [← hw.2, ← hw.1]
        | dir =>
          rw [hinner, hnode2] at hw
          cases hw
    · cases node with
      | file c =>
        rw [hnode] at hw
        cases hw
      | dir =>
        rw [hnode] at hw
        simp only [atomicWriteFile] at hw
        rcases hnode2 :
            fs (filepathJoin (p ++ ShallowEntrySuffix) ShallowEntrySuffix)
            with _ | node2
        · rw [hnode2] at hw
          simp only [Except.ok.injEq, Prod.mk.injEq] at hw
          refine ⟨rfl, hw.1.symm, fs, Or.inl rfl, hnode, ?_⟩
          rw [← hw.2, ← hw.1]
        · cases node2 with
          | file c =>
            rw [hnode2] at hw
            simp only [Except.ok.injEq, Prod.mk.injEq] at hw
            refine ⟨rfl, hw.1.symm, fs, Or.inl rfl, hnode, ?_⟩
            rw [← hw.2, ← hw.1]
          | dir =>
            rw [hnode2] at hw
            cases hw
  | symlink =>
    simp only [WriteShallowPlaceholder, placeholderPath, htype] at hw
    cases hw

/-! ## Behaviour of `ReadShallowPlaceholder` on each disk configuration -/

theorem read_both_present (fs : FS) (p : String) (n1 n2 : FNode)
    (h1 : fs p = some n1) (h2 : fs (p ++ ShallowEntrySuffix) = some n2) :
    ReadShallowPlaceholder fs p =
      .error (.corrupt p (p ++ ShallowEntrySuffix)) := by
  simp [ReadShallowPlaceholder, h1, h2]

theorem read_only_real (fs : FS) (p : String) (n : FNode)
    (h1 : fs p = some n) (h2 : fs (p ++ ShallowEntrySuffix) = none) :
    ReadShallowPlaceholder fs p = .ok none := by
  simp [ReadShallowPlaceholder, dirEntryFromPlaceholder, isDirNode, h1, h2]

theorem read_neither (fs : FS) (p : String)
    (h1 : fs p = none) (h2 : fs (p ++ ShallowEntrySuffix) = none) :
    ReadShallowPlaceholder fs p = .error (.notFound p) := by
  simp [ReadShallowPlaceholder, dirEntryFromPlaceholder, isDirNode, h1, h2]

theorem read_file_placeholder (fs : FS) (p : String) (c : String)
    (de : DirEntry) (h1 : fs p = none)
    (h2 : fs (p ++ ShallowEntrySuffix) = some (.file c))
    (h3 : jsonDecodeDirEntry c = some de) :
    ReadShallowPlaceholder fs p = .ok (some de) := by
  simp [ReadShallowPlaceholder, dirEntryFromPlaceholder, isDirNode, h1, h2,
    h3]

theorem read_dir_placeholder (fs : FS) (p : String) (c : String)
    (de : DirEntry) (h1 : fs p = none)
    (h2 : fs (p ++ ShallowEntrySuffix) = some .dir)
    (h3 : fs (filepathJoin (p ++ ShallowEntrySuffix) ShallowEntrySuffix) =
      some (.file c))
    (h4 : jsonDecodeDirEntry c = some de) :
    ReadShallowPlaceholder fs p = .ok (some de) := by
  simp [ReadShallowPlaceholder, dirEntryFromPlaceholder, isDirNode, h1, h2,
    h3, h4]

theorem snapshotCreate_error (fs : FS) :
    ∀ (tree : List String) (p : String), p ∈ tree →
      ∀ e : ShallowError, ReadShallowPlaceholder fs p = .error e →
      ∃ e2, snapshotCreate fs tree = .error e2 := by
  intro tree
  induction tree with
  | nil =>
    intro p hp
    cases hp
  | cons q rest ih =>
    intro p hp e he
    rw [snapshotCreate]
    cases hq : ReadShallowPlaceholder fs q with
    | error e2 => exact ⟨e2, rfl⟩
    | ok v =>
      rcases List.mem_cons.mp hp with rfl | hmem
      · rw [hq] at he
        cases he
      · obtain ⟨e2, h2⟩ := ih p hmem e he
        exact ⟨e2, h2⟩

theorem append_tmp_ne (p : String) : p ++ ".tmp" ≠ p := by
  apply ne_of_length_ne
  have h4 : (".tmp" : String).length = 4 := rfl
  simp [String.length_append, h4]

/-! ## The claims -/

/-- C1: for every path `p` and every `DirEntry` `e` whose type is File or
Directory, if `WriteShallowPlaceholder p e` succeeds and no real entry
exists at `p`, then `ReadShallowPlaceholder p` returns a `DirEntry`
equal field-for-field to `e`. -/
theorem c1_write_read_roundtrip (fs : FS) (p : String) (e : DirEntry)
    (mp : String) (fs2 : FS)
    (htype : e.type = .file ∨ e.type = .directory)
    (hw : WriteShallowPlaceholder fs p e = .ok (mp, fs2))
    (horig : fs2 p = none) :
    ReadShallowPlaceholder fs2 p = .ok (some e) := by
  rcases write_ok_cases fs p e mp fs2 hw with
    ⟨ht, hmp, hfs2⟩ | ⟨ht, hmp, fs1, hfs1, hdir, hfs2⟩
  · subst hfs2
    subst hmp
    exact read_file_placeholder _ _ (encoderEncode e) e horig
      (FS.update_same _ _ _) (jsonDecode_encoderEncode e)
  · subst hfs2
    subst hmp
    refine read_dir_placeholder _ _ (encoderEncode e) e horig ?_
      (FS.update_same _ _ _) (jsonDecode_encoderEncode e)
    rw [FS.update_ne _ _ _ _ (Ne.symm (joined_ne_suffixed p))]
    exact hdir

/-- C2: if both a real entry exists at `p` and a filesystem node exists
at `p + suffix`, then `ReadShallowPlaceholder p` returns the Corrupt
error (invariant I1), and snapshot creation over a tree containing such
a pair fails as a whole. -/
theorem c2_real_and_placeholder_corrupt_snapshot_fails (fs : FS)
    (p : String) (n1 n2 : FNode) (tree : List String)
    (h1 : fs p = some n1) (h2 : fs (p ++ ShallowEntrySuffix) = some n2)
    (hmem : p ∈ tree) :
    ReadShallowPlaceholder fs p =
      .error (.corrupt p (p ++ ShallowEntrySuffix)) ∧
    ∃ e2, snapshotCreate fs tree = .error e2 := by
  have hc := read_both_present fs p n1 n2 h1 h2
  exact ⟨hc, snapshotCreate_error fs tree p hmem _ hc⟩

/-- C3 counterexample: the content `WriteShallowPlaceholder` writes is
not a bare newline-free JSON object — for a sample entry the written
placeholder content ends in `'\n'` (the byte `json.Encoder.Encode`
appends), so there is trailing data after the object. -/
theorem c3_counterexample :
    (match WriteShallowPlaceholder wfs0 "/f" wde1 with
     | .ok (mp, fs2) =>
       (readFile fs2 mp).map (fun content => content.data.getLast?)
     | .error _ => none) = some (some '\n') := by
  decide

/-- C3 (amended): the content `WriteShallowPlaceholder` writes for `e`
is a single JSON object containing no newline character, followed by
exactly one trailing `'\n'` appended by the JSON encoder. -/
theorem c3_amended_newline_terminated_json (fs : FS) (p : String)
    (e : DirEntry) (mp : String) (fs2 : FS)
    (hw : WriteShallowPlaceholder fs p e = .ok (mp, fs2)) :
    readFile fs2 mp = some (encoderEncode e) ∧
    (encoderEncode e).data = encodeDirEntryChars e ++ ['\n'] ∧
    '\n' ∉ encodeDirEntryChars e := by
  refine ⟨?_, rfl, newline_not_mem_encode e⟩
  rcases write_ok_cases fs p e mp fs2 hw with
    ⟨_, hmp, hfs2⟩ | ⟨_, hmp, fs1, hfs1, hdir, hfs2⟩ <;>
  · subst hfs2
    simp [readFile, FS.update_same]

/-- C4: `placeholderPath p File` returns `p + suffix`; `placeholderPath
p Directory` creates (if absent) the directory `p + suffix` and returns
`p + suffix + separator + suffix`; and for every other entry type (in
particular Symlink) it fails with the unsupported-entry-type error. -/
theorem c4_placeholderPath_spec (fs : FS) (p : String)
    (hnf : isFileNode (fs (p ++ ShallowEntrySuffix)) = false) :
    placeholderPath fs p .file = .ok (p ++ ShallowEntrySuffix, fs) ∧
    (∃ fs1 : FS,
      placeholderPath fs p .directory =
        .ok (filepathJoin (p ++ ShallowEntrySuffix) ShallowEntrySuffix,
          fs1) ∧
      fs1 (p ++ ShallowEntrySuffix) = some .dir ∧
      ∀ q, q ≠ p ++ ShallowEntrySuffix → fs1 q = fs q) ∧
    placeholderPath fs p .symlink =
      .error (.unsupportedEntryType .symlink) := by
  refine ⟨rfl, ?_, rfl⟩
  rcases hnode : fs (p ++ ShallowEntrySuffix) with _ | node
  · refine ⟨fs.update (p ++ ShallowEntrySuffix) .dir, ?_,
      FS.update_same _ _ _, fun q hq => FS.update_ne _ _ _ _ hq⟩
    simp [placeholderPath, mkdirAll, hnode]
  · cases node with
    | file c =>
      rw [hnode] at hnf
      simp [isFileNode] at hnf
    | dir =>
      refine ⟨fs, ?_, hnode, fun q hq => rfl⟩
      simp [placeholderPath, mkdirAll, hnode]

/-- C5: for every path `p` at which a real entry exists and no
placeholder node exists at `p + suffix`, `ReadShallowPlaceholder p`
returns `none` with no error — deepening an already-fully-real path is
a no-op success. -/
theorem c5_read_real_only_is_none (fs : FS) (p : String) (n : FNode)
    (h1 : fs p = some n) (h2 : fs (p ++ ShallowEntrySuffix) = none) :
    ReadShallowPlaceholder fs p = .ok none :=
  read_only_real fs p n h1 h2

/-- C6: for every path `p` at which neither a real entry nor any
placeholder node (at `p + suffix`, or at `p + suffix + separator +
suffix` inside a directory there) exists, `ReadShallowPlaceholder p`
returns the NotFound error. -/
theorem c6_read_neither_is_notfound (fs : FS) (p : String)
    (h1 : fs p = none) (h2 : fs (p ++ ShallowEntrySuffix) = none)
    (h3 : fs (filepathJoin (p ++ ShallowEntrySuffix) ShallowEntrySuffix) =
      none) :
    ReadShallowPlaceholder fs p = .error (.notFound p) :=
  read_neither fs p h1 h2

/-- C7: placeholder-backed file and directory entries surface the
decoded `DirEntry` as their metadata (`DirEntryOrNil` probes the
placeholder), and every content operation — `Open` on a placeholder
file, `Child` or `Readdir` on a placeholder directory — fails with an
explicit "not supported" error. -/
theorem c7_placeholder_entry_metadata_and_refusals (fs : FS)
    (f : shallowFilesystemFile) (d : shallowFilesystemDirectory)
    (name : String) :
    f.DirEntryOrNil fs = ReadShallowPlaceholder fs f.fullPath ∧
    d.DirEntryOrNil fs = ReadShallowPlaceholder fs d.fullPath ∧
    f.Open =
      .error (.notSupported "shallowFilesystemFile.Open not supported") ∧
    d.Child name =
      .error
        (.notSupported "shallowFilesystemDirectory.Child not supported") ∧
    d.Readdir =
      .error
        (.notSupported
          "shallowFilesystemDirectory.Readdir not supported") :=
  ⟨rfl, rfl, rfl, rfl, rfl⟩

/-- C8: the placeholder file write of `WriteShallowPlaceholder` is
atomic via rename-into-place — in every observable filesystem state of
the modelled write (before, with the temporary written, after the
rename) a reader of the placeholder path sees either the complete prior
content or the complete new content, never a partial file. -/
theorem c8_atomic_write_old_or_new (fs : FS) (p : String) (e : DirEntry)
    (mp : String) (fs1 : FS) (s : FS)
    (hpl : placeholderPath fs p e.type = .ok (mp, fs1))
    (hs : s ∈ atomicWriteStates fs1 mp (encoderEncode e)) :
    readFile s mp = readFile fs1 mp ∨
    readFile s mp = some (encoderEncode e) := by
  simp only [atomicWriteStates, List.mem_cons, List.not_mem_nil,
    or_false] at hs
  rcases hs with rfl | rfl | rfl
  · left; rfl
  · left
    rw [readFile, FS.update_ne _ _ _ _ (Ne.symm (append_tmp_ne mp))]
    rfl
  · right
    simp [readFile, FS.update_same]

/-- C9: with a real entry present at `p`, the Corrupt (I1) error from
`ReadShallowPlaceholder p` is triggered by the mere existence of any
filesystem node at `p + suffix` — any file regardless of content, or
any directory — not only by a valid placeholder. -/
theorem c9_corrupt_on_any_node (fs : FS) (p : String) (n1 n2 : FNode)
    (h1 : fs p = some n1) (h2 : fs (p ++ ShallowEntrySuffix) = some n2) :
    ReadShallowPlaceholder fs p =
      .error (.corrupt p (p ++ ShallowEntrySuffix)) :=
  read_both_present fs p n1 n2 h1 h2

/-- C10: with no real entry at `p`, a node at `p + suffix` whose content
fails to decode as a JSON `DirEntry` (a malformed file placeholder, or a
directory placeholder whose inner metadata file is malformed) makes
`ReadShallowPlaceholder p` return the same NotFound error as when
nothing exists at all. -/
theorem c10_malformed_placeholder_notfound (fs : FS) (p : String)
    (h1 : fs p = none) :
    (∀ c : String, fs (p ++ ShallowEntrySuffix) = some (.file c) →
      jsonDecodeDirEntry c = none →
      ReadShallowPlaceholder fs p = .error (.notFound p)) ∧
    (fs (p ++ ShallowEntrySuffix) = some .dir →
      ∀ c : String,
        fs (filepathJoin (p ++ ShallowEntrySuffix) ShallowEntrySuffix) =
          some (.file c) →
        jsonDecodeDirEntry c = none →
        ReadShallowPlaceholder fs p = .error (.notFound p)) := by
  constructor
  · intro c h2 h3
    simp [ReadShallowPlaceholder, dirEntryFromPlaceholder, isDirNode, h1,
      h2, h3]
  · intro h2 c h3 h4
    simp [ReadShallowPlaceholder, dirEntryFromPlaceholder, isDirNode, h1,
      h2, h3, h4]

/-! ## Concrete witnesses -/

theorem c1_witness :
    (wde1.type = .file ∨ wde1.type = .directory) ∧
    WriteShallowPlaceholder wfs0 "/f" wde1 =
      .ok ("/f" ++ ShallowEntrySuffix, wfsAfterF) ∧
    wfsAfterF "/f" = none ∧
    ReadShallowPlaceholder wfsAfterF "/f" = .ok (some wde1) :=
  ⟨Or.inl rfl, rfl, rfl,
    c1_write_read_roundtrip wfs0 "/f" wde1 ("/f" ++ ShallowEntrySuffix)
      wfsAfterF (Or.inl rfl) rfl rfl⟩

theorem c2_witness :
    wfsBoth "/x" = some (.file "real") ∧
    wfsBoth ("/x" ++ ShallowEntrySuffix) = some (.file "junk") ∧
    "/x" ∈ ["/x"] ∧
    (ReadShallowPlaceholder wfsBoth "/x" =
        .error (.corrupt "/x" ("/x" ++ ShallowEntrySuffix)) ∧
      ∃ e2, snapshotCreate wfsBoth ["/x"] = .error e2) :=
  ⟨rfl, rfl, List.mem_cons_self "/x" [],
    c2_real_and_placeholder_corrupt_snapshot_fails wfsBoth "/x"
      (.file "real") (.file "junk") ["/x"] rfl rfl
      (List.mem_cons_self "/x" [])⟩

theorem c3_witness :
    WriteShallowPlaceholder wfs0 "/f" wde1 =
      .ok ("/f" ++ ShallowEntrySuffix, wfsAfterF) ∧
    (readFile wfsAfterF ("/f" ++ ShallowEntrySuffix) =
        some (encoderEncode wde1) ∧
      (encoderEncode wde1).data = encodeDirEntryChars wde1 ++ ['\n'] ∧
      '\n' ∉ encodeDirEntryChars wde1) :=
  ⟨rfl, c3_amended_newline_terminated_json wfs0 "/f" wde1
    ("/f" ++ ShallowEntrySuffix) wfsAfterF rfl⟩

theorem c4_witness :
    isFileNode (wfs0 ("/d" ++ ShallowEntrySuffix)) = false ∧
    (placeholderPath wfs0 "/d" .file =
        .ok ("/d" ++ ShallowEntrySuffix, wfs0) ∧
      (∃ fs1 : FS,
        placeholderPath wfs0 "/d" .directory =
          .ok (filepathJoin ("/d" ++ ShallowEntrySuffix)
            ShallowEntrySuffix, fs1) ∧
        fs1 ("/d" ++ ShallowEntrySuffix) = some .dir ∧
        ∀ q, q ≠ "/d" ++ ShallowEntrySuffix → fs1 q = wfs0 q) ∧
      placeholderPath wfs0 "/d" .symlink =
        .error (.unsupportedEntryType .symlink)) :=
  ⟨rfl, c4_placeholderPath_spec wfs0 "/d" rfl⟩

theorem c5_witness :
    wfsReal "/r" = some (.file "hello") ∧
    wfsReal ("/r" ++ ShallowEntrySuffix) = none ∧
    ReadShallowPlaceholder wfsReal "/r" = .ok none :=
  ⟨rfl, rfl,
    c5_read_real_only_is_none wfsReal "/r" (.file "hello") rfl rfl⟩

theorem c6_witness :
    wfs0 "/m" = none ∧
    wfs0 ("/m" ++ ShallowEntrySuffix) = none ∧
    wfs0 (filepathJoin ("/m" ++ ShallowEntrySuffix) ShallowEntrySuffix) =
      none ∧
    ReadShallowPlaceholder wfs0 "/m" = .error (.notFound "/m") :=
  ⟨rfl, rfl, rfl, c6_read_neither_is_notfound wfs0 "/m" rfl rfl rfl⟩

theorem c8_witness :
    placeholderPath wfs0 "/f" wde1.type =
      .ok ("/f" ++ ShallowEntrySuffix, wfs0) ∧
    wtmpState ∈
      atomicWriteStates wfs0 ("/f" ++ ShallowEntrySuffix)
        (encoderEncode wde1) ∧
    (readFile wtmpState ("/f" ++ ShallowEntrySuffix) =
        readFile wfs0 ("/f" ++ ShallowEntrySuffix) ∨
      readFile wtmpState ("/f" ++ ShallowEntrySuffix) =
        some (encoderEncode wde1)) :=
  have hmem : wtmpState ∈
      atomicWriteStates wfs0 ("/f" ++ ShallowEntrySuffix)
        (encoderEncode wde1) :=
    List.mem_cons_of_mem _ (List.mem_cons_self _ _)
  ⟨rfl, hmem,
    c8_atomic_write_old_or_new wfs0 "/f" wde1 ("/f" ++ ShallowEntrySuffix)
      wfs0 wtmpState rfl hmem⟩

theorem c9_witness :
    wfsBoth "/x" = some (.file "real") ∧
    wfsBoth ("/x" ++ ShallowEntrySuffix) = some (.file "junk") ∧
    ReadShallowPlaceholder wfsBoth "/x" =
      .error (.corrupt "/x" ("/x" ++ ShallowEntrySuffix)) :=
  ⟨rfl, rfl,
    c9_corrupt_on_any_node wfsBoth "/x" (.file "real") (.file "junk")
      rfl rfl⟩

theorem c10_witness :
    wfsBad "/b" = none ∧
    wfsBad ("/b" ++ ShallowEntrySuffix) = some (.file "junk") ∧
    jsonDecodeDirEntry "junk" = none ∧
    ReadShallowPlaceholder wfsBad "/b" = .error (.notFound "/b") :=
  ⟨rfl, rfl, by decide,
    (c10_malformed_placeholder_notfound wfsBad "/b" rfl).1 "junk" rfl
      (by decide)⟩

end ShallowFS
